import Mathlib

/-!
# Discovery + heartbeat protocol of test-grpc

A shallow embedding of the observer (`testgrpc_client.cc`) and the announcer
(`testgrpc_server.cc`), followed by theorems about the peer registry, the
heartbeat client loop, the server monitor loop and the announcer loop.

Conventions of the embedding

* `std::map<std::string, server_status_t>` is a list of key/value pairs kept
  in strictly increasing key order (`std::less<std::string>`, the
  lexicographic order of the characters); the operations used by the source
  (`try_emplace`, `operator[]`) are translated one by one.
* `std::time_t` and the tick count of a `steady_clock::time_point` are `Int`.
  `int failed_pings` is an `Int`; the counter stays within `0..3` in the loop
  (proved below), so no wrap-around is modelled.
* Everything the operating system or the network decides (the bytes returned
  by `recvfrom`, whether an RPC succeeds, the clock, whether `socket` or
  `sendto` succeed) is an explicit argument.
* One thread is followed at a time: a loop is the iteration of its body, and
  the body is a function from the shared state to the shared state.
-/

namespace TestGrpc

/-! ## Observer (`testgrpc_client.cc`) -/

namespace Client

/-- The struct `server_status_t`: `last_ping`, `status` (true = Online) and
`failed_pings`. -/
structure server_status_t where
  last_ping : Int
  status : Bool
  failed_pings : Int
  deriving DecidableEq

/-- The alias `server_map = std::map<std::string, server_status_t>`. -/
abbrev server_map := List (String × server_status_t)

/-- Value-initialised `server_status_t{}`, what `operator[]` inserts for a
missing key. -/
def value_init : server_status_t := ⟨0, false, 0⟩

/-- The class invariant of `std::map`: keys strictly increasing. -/
def sorted_keys (m : server_map) : Prop :=
  List.Pairwise (fun a b : String × server_status_t => a.1.data < b.1.data) m

/-- Lookup, `servers.find(k)`: the record stored under `k`, if any. -/
def find : server_map → String → Option server_status_t
  | [], _ => none
  | (k', v') :: m, k => if k' = k then some v' else find m k

/-- Insertion of a new node at its place in key order. -/
def insert_node : server_map → String → server_status_t → server_map
  | [], k, v => [(k, v)]
  | (k', v') :: m, k, v =>
    if k.data < k'.data then (k, v) :: (k', v') :: m
    else (k', v') :: insert_node m k v

/-- The member `std::map::try_emplace(k, v)`: nothing happens when `k` is
already a key, otherwise `(k, v)` is inserted at its place in key order. -/
def try_emplace (m : server_map) (k : String) (v : server_status_t) : server_map :=
  match find m k with
  | some _ => m
  | none => insert_node m k v

/-- Replace the record stored under `k` by its image under `f`. -/
def modify : server_map → String → (server_status_t → server_status_t) → server_map
  | [], _, _ => []
  | (k', v') :: m, k, f =>
    if k' = k then (k', f v') :: m else (k', v') :: modify m k f

/-- An assignment through `servers[k]`, as in `servers[key].status = false`:
`operator[]` first inserts a value-initialised record when `k` is missing,
then the field update `f` is applied to the record under `k`. -/
def subscript_assign (m : server_map) (k : String)
    (f : server_status_t → server_status_t) : server_map :=
  modify (try_emplace m k value_init) k f

/-- A read through `servers[k]`: the map after `operator[]` (which may have
inserted a value-initialised record) and the record found. -/
def subscript_read (m : server_map) (k : String) : server_map × server_status_t :=
  let m1 := try_emplace m k value_init
  (m1, (find m1 k).getD value_init)

/-- Number of records stored under key `k`. -/
def records_for (m : server_map) (k : String) : Nat :=
  (m.filter (fun p => decide (p.1 = k))).length

/-- What one call of `recvfrom` hands back: the receive buffer and the
returned length (`-1` on error, `0` for an empty datagram). -/
structure Datagram where
  buffer : List Char
  len : Int

/-- The expression `std::string(buffer, len)`: the first `len` characters of
the buffer. -/
def recv_str (d : Datagram) : String :=
  String.mk (d.buffer.take d.len.toNat)

/-- One iteration of the receive loop of `SimpleApp::udp_receive`
(lines 155-163): a datagram of positive length is offered to the registry
with `try_emplace`, anything else is skipped. -/
def udp_receive (servers : server_map) (d : Datagram) : server_map :=
  if d.len > 0 then try_emplace servers (recv_str d) ⟨0, false, 0⟩ else servers

/-- The datagram that carries the text `s` in full. -/
def datagram_of (s : String) : Datagram := ⟨s.toList, s.length⟩

/-- The wire format `"<host>:<port>"` of an advertisement, as the
specification words it and in its weakest reading: the payload has a colon
in it. The source has no such test; the predicate only serves to name a
payload that is malformed under every reading of the format. -/
def has_host_port_form (s : String) : Bool := s.toList.contains ':'

/-- The method `MaintainingApiClient::Ping` (lines 82-99). The RPC is the
environment; `status_ok` is what `status.ok()` returns for this call. -/
def MaintainingApiClient.Ping (status_ok : Bool) : String :=
  if status_ok then "Ok" else "RPC failed"

/-- The method `SimpleApp::stopPings` (lines 246-250). -/
def stopPings (servers : server_map) (key : String) : server_map :=
  let s1 := subscript_assign servers key (fun r => { r with status := false })
  subscript_assign s1 key (fun r => { r with failed_pings := 0 })

/-- The "Connect" branch of the button handler (lines 201-206), registry part:
`servers[key].status = true`, after which `startPings(key)` is called. -/
def connect_action (servers : server_map) (key : String) : server_map :=
  subscript_assign servers key (fun r => { r with status := true })

/-- The "Disconnect" branch of the button handler (lines 207-212), registry
part: `servers[key].status = false; stopPings(key)`. -/
def disconnect_action (servers : server_map) (key : String) : server_map :=
  stopPings (subscript_assign servers key (fun r => { r with status := false })) key

/-- Result of one pass through the body of the `while (true)` of
`startPings`: the registry, whether `client.Ping` was called, and whether
the loop goes on to another pass (`false` after a `break`). -/
structure Cycle where
  servers : server_map
  pinged : Bool
  running : Bool

/-- One pass through the loop body of `SimpleApp::startPings` (lines 225-241).
`status_ok` is the outcome of the RPC of this pass and `now` the value of
`std::time(nullptr)`; both are read only if the pass gets that far. -/
def startPings_cycle (servers : server_map) (key : String) (status_ok : Bool)
    (now : Int) : Cycle :=
  let (s0, r0) := subscript_read servers key
  if !r0.status then ⟨s0, false, false⟩
  else
    let response := MaintainingApiClient.Ping status_ok
    let s1 :=
      if response == "Ok" then
        subscript_assign
          (subscript_assign s0 key (fun r => { r with failed_pings := 0 }))
          key (fun r => { r with last_ping := now })
      else
        subscript_assign s0 key (fun r => { r with failed_pings := r.failed_pings + 1 })
    let (s2, r2) := subscript_read s1 key
    if r2.failed_pings ≥ 3 then ⟨stopPings s2 key, true, false⟩
    else ⟨s2, true, true⟩

/-- The pinger thread of one peer: the registry as the thread sees it,
whether the thread is still in its loop, and how many times it has called
`client.Ping` so far. -/
structure Pinger where
  servers : server_map
  running : Bool
  pings : Nat

/-- The pinger thread meets the next ping outcome: a thread still in its loop
runs one pass, a thread that has left the loop does nothing. -/
def startPings_step (key : String) (p : Pinger) (o : Bool × Int) : Pinger :=
  if p.running then
    let c := startPings_cycle p.servers key o.1 o.2
    ⟨c.servers, c.running, p.pings + (if c.pinged then 1 else 0)⟩
  else p

/-- The thread started by `SimpleApp::startPings(key)` (lines 221-244), fed a
finite sequence of ping outcomes `(status_ok, now)`, one per cycle, with no
other thread touching the registry in between. -/
def startPings (servers : server_map) (key : String)
    (outcomes : List (Bool × Int)) : Pinger :=
  outcomes.foldl (startPings_step key) ⟨servers, true, 0⟩

/-- The list of ping outcomes has a run of three failures in a row that ends
at position `n` (positions counted from 1): the outcomes at positions `n-2`,
`n-1` and `n` are all failures. -/
def three_failures_end_at (outcomes : List Bool) (n : Nat) : Prop :=
  ∃ pre post : List Bool,
    outcomes = pre ++ false :: false :: false :: post ∧ pre.length + 3 = n

/-- Position (counted from 1) of the pass at which a loop that enters with
`c` failures on its counter leaves, if it does: the counter machine of
lines 228-239 with everything but the counter erased. -/
def first_stop : Nat → List Bool → Option Nat
  | _, [] => none
  | _, true :: rest => (first_stop 0 rest).map (· + 1)
  | c, false :: rest =>
    if c + 1 ≥ 3 then some 1 else (first_stop (c + 1) rest).map (· + 1)

/-- The address used in the end-to-end scenario of the specification. -/
def peer_address : String := "10.0.0.5:50051"

/-- The registry after the announcement of `peer_address` has been received
by an empty registry and the operator has pressed "Connect" for it. -/
def connected_registry : server_map :=
  connect_action (udp_receive [] (datagram_of peer_address)) peer_address

end Client

/-! ## Announcer (`testgrpc_server.cc`) -/

namespace Server

/-- The data members of `MaintainingApiServiceImpl`: the address carried by
the latest ping and the `steady_clock` instant of its arrival, in clock
ticks. -/
structure MaintainingApiServiceImpl where
  ip : String
  last_ping : Int
  deriving DecidableEq

/-- The handler `MaintainingApiServiceImpl::Ping` (lines 36-41): `now` is
`steady_clock::now()` and `clientip` is `request->clientip()`. -/
def MaintainingApiServiceImpl.Ping (_service : MaintainingApiServiceImpl) (now : Int)
    (clientip : String) : MaintainingApiServiceImpl :=
  { ip := clientip, last_ping := now }

/-- Ticks of `std::chrono::steady_clock` per second (its period is one
nanosecond in libstdc++ and libc++). -/
def ticks_per_second : Int := 1000000000

/-- The conversion `duration_cast<std::chrono::seconds>(d).count()`: whole seconds,
rounded toward zero. -/
def duration_cast_seconds (d : Int) : Int := Int.tdiv d ticks_per_second

/-- What the loop of `SimpleApp::RunServer` reads and writes: the service
object, the local variable `last_ping`, the member `connected`, and the
lines appended to `textEdit` so far. -/
structure Monitor where
  service : MaintainingApiServiceImpl
  last_ping : Int
  connected : Bool
  textEdit : List String
  deriving DecidableEq

/-- State on entry to the loop of `RunServer` (lines 113, 128 and the
constructor, line 90): a default-constructed service, `last_ping` copied from
it, `connected = false`, an empty log. -/
def Monitor.init : Monitor :=
  { service := { ip := "", last_ping := 0 }, last_ping := 0, connected := false,
    textEdit := [] }

/-- One pass through the body of the `while (true)` of `SimpleApp::RunServer`
(lines 130-148); `now` is `steady_clock::now()`, read in the else branch. -/
def RunServer_iteration (st : Monitor) (now : Int) : Monitor :=
  if st.service.last_ping != st.last_ping then
    let st1 :=
      if !st.connected then
        { st with textEdit := st.textEdit ++ [st.service.ip ++ " connected..."],
                  connected := true }
      else st
    { st1 with textEdit := st1.textEdit ++ ["Ping!"],
               last_ping := st1.service.last_ping }
  else
    let diff := duration_cast_seconds (now - st.last_ping)
    if diff ≥ 15 && st.connected && !st.service.ip.isEmpty then
      { st with textEdit := st.textEdit ++ [st.service.ip ++ " disconnected..."],
                connected := false }
    else st

/-- What can happen to the server session: a ping arrives (gRPC thread), or
the monitor loop makes a pass. -/
inductive Event where
  | ping (now : Int) (clientip : String)
  | check (now : Int)
  deriving DecidableEq

/-- Effect of one event on the session. -/
def Event.apply (st : Monitor) : Event → Monitor
  | .ping now clientip => { st with service := st.service.Ping now clientip }
  | .check now => RunServer_iteration st now

/-- Effect of a sequence of events on the session. -/
def run_events (st : Monitor) (es : List Event) : Monitor :=
  es.foldl Event.apply st

/-- Consecutive passes of the monitor loop at the given instants, with no
ping arriving in between. -/
def passes (nows : List Int) : List Event := nows.map Event.check

/-- The instant `s` seconds after the instant `origin`, in ticks. -/
def at_second (origin : Int) (s : Nat) : Int := origin + (s : Int) * ticks_per_second

/-- The events of second `s` in the scenario "pings at t = 0, 5, 10 and none
after, one monitor pass per second", where t = 0 is the instant `origin`:
the ping of that second, if any, then the pass. -/
def scenario_second (origin : Int) (clientip : String) (s : Nat) : List Event :=
  (if s = 0 ∨ s = 5 ∨ s = 10 then [Event.ping (at_second origin s) clientip] else [])
    ++ [Event.check (at_second origin s)]

/-- The scenario up to and including the monitor pass of second `upto`. -/
def scenario (origin : Int) (clientip : String) (upto : Nat) : List Event :=
  (List.range (upto + 1)).flatMap (scenario_second origin clientip)

/-- The clock reading taken as t = 0 in the worked scenario: 1000 seconds
after the clock's epoch. -/
def scenario_origin : Int := 1000 * ticks_per_second

/-- Results of the system calls made by one call of `udp_broadcast`. -/
structure SocketEnv where
  socket_ok : Bool
  setsockopt_ok : Bool
  sendto_ok : Bool
  deriving DecidableEq

/-- The method `SimpleApp::udp_broadcast` (lines 152-180): the datagrams put
on the wire by one call. -/
def udp_broadcast (message : String) (env : SocketEnv) : List String :=
  if !env.socket_ok then []
  else if !env.setsockopt_ok then []
  else if !env.sendto_ok then []
  else [message]

/-- Result of one pass through the loop of the `udp_broadcaster` thread: the
datagrams sent and the seconds slept. -/
structure AnnounceCycle where
  sent : List String
  slept : Nat
  deriving DecidableEq

/-- One pass through the loop body of the `udp_broadcaster` thread (lines
193-200); `connected` is the member read at the top of the pass, `ip` and
`port` are the captured strings. -/
def udp_broadcaster_cycle (connected : Bool) (ip port : String) (env : SocketEnv) :
    AnnounceCycle :=
  if connected then ⟨[], 5⟩
  else ⟨udp_broadcast (ip ++ ":" ++ port) env, 10⟩

/-- Consecutive passes of the `udp_broadcaster` loop; each pass comes with the
value of `connected` it reads and the results of its system calls. The
datagrams and the sleeping time add up. -/
def udp_broadcaster (ip port : String) : List (Bool × SocketEnv) → AnnounceCycle
  | [] => ⟨[], 0⟩
  | (connected, env) :: rest =>
    let c := udp_broadcaster_cycle connected ip port env
    let r := udp_broadcaster ip port rest
    ⟨c.sent ++ r.sent, c.slept + r.slept⟩

end Server

/-! ## Registry lemmas -/

namespace Client

lemma find_insert_node (m : server_map) (k k' : String) (v : server_status_t)
    (hk : find m k = none) :
    find (insert_node m k v) k' = if k = k' then some v else find m k' := by
  induction m with
  | nil =>
    by_cases h : k = k' <;> simp [insert_node, find, h]
  | cons p m ih =>
    obtain ⟨a, b⟩ := p
    have h1 : ¬ a = k := by
      intro h
      simp [find, h] at hk
    have hk' : find m k = none := by
      simpa [find, h1] using hk
    by_cases h2 : k.data < a.data
    · by_cases h : k = k'
      · subst h
        simp [insert_node, find, h2]
      · simp [insert_node, find, h2, h]
    · by_cases h : k = k'
      · subst h
        simp [insert_node, find, h2, h1, ih hk']
      · simp [insert_node, find, h2, h, ih hk']

lemma find_try_emplace (m : server_map) (k k' : String) (v : server_status_t) :
    find (try_emplace m k v) k' =
      if k = k' then some ((find m k).getD v) else find m k' := by
  unfold try_emplace
  cases hf : find m k with
  | some r =>
    by_cases h : k = k'
    · subst h
      simp [hf]
    · simp [h]
  | none =>
    simp [find_insert_node m k k' v hf]

lemma find_modify (m : server_map) (k k' : String)
    (f : server_status_t → server_status_t) :
    find (modify m k f) k' = if k = k' then (find m k).map f else find m k' := by
  induction m with
  | nil => simp [modify, find]
  | cons p m ih =>
    obtain ⟨a, b⟩ := p
    by_cases h1 : a = k
    · subst h1
      by_cases h : a = k' <;> simp [modify, find, h]
    · by_cases h : k = k'
      · subst h
        simp [modify, find, h1, ih]
      · simp [modify, find, h1, ih, h]

lemma find_subscript_assign (m : server_map) (k k' : String)
    (f : server_status_t → server_status_t) :
    find (subscript_assign m k f) k' =
      if k = k' then some (f ((find m k).getD value_init)) else find m k' := by
  unfold subscript_assign
  rw [find_modify]
  by_cases h : k = k'
  · subst h
    simp [find_try_emplace]
  · simp [find_try_emplace, h]

lemma try_emplace_of_find_some (m : server_map) (k : String) (v r : server_status_t)
    (h : find m k = some r) : try_emplace m k v = m := by
  simp [try_emplace, h]

lemma find_eq_none_iff (m : server_map) (k : String) :
    find m k = none ↔ ∀ p ∈ m, p.1 ≠ k := by
  induction m with
  | nil => simp [find]
  | cons p m ih =>
    obtain ⟨a, b⟩ := p
    by_cases h : a = k
    · simp [find, h]
    · simp [find, h, ih]

lemma records_for_eq_zero (m : server_map) (k : String) (h : ∀ p ∈ m, p.1 ≠ k) :
    records_for m k = 0 := by
  unfold records_for
  rw [List.length_eq_zero, List.filter_eq_nil_iff]
  intro p hp
  simpa using h p hp

lemma records_for_insert_node (m : server_map) (k k' : String) (v : server_status_t) :
    records_for (insert_node m k v) k' = records_for m k' + if k = k' then 1 else 0 := by
  induction m with
  | nil => by_cases h : k = k' <;> simp [insert_node, records_for, h]
  | cons p m ih =>
    obtain ⟨a, b⟩ := p
    unfold records_for at ih ⊢
    by_cases h2 : k.data < a.data
    · have e : insert_node ((a, b) :: m) k v = (k, v) :: (a, b) :: m := by
        simp [insert_node, h2]
      rw [e]
      by_cases h : k = k' <;> by_cases ha : a = k' <;> simp [List.filter_cons, h, ha]
    · have e : insert_node ((a, b) :: m) k v = (a, b) :: insert_node m k v := by
        simp [insert_node, h2]
      rw [e]
      by_cases ha : a = k'
      · simp [List.filter_cons, ha, ih]
        omega
      · simp [List.filter_cons, ha, ih]

lemma records_for_of_find_some (m : server_map) (k : String) (r : server_status_t)
    (hs : sorted_keys m) (h : find m k = some r) : records_for m k = 1 := by
  induction m with
  | nil => simp [find] at h
  | cons p m ih =>
    obtain ⟨a, b⟩ := p
    unfold sorted_keys at hs
    rw [List.pairwise_cons] at hs
    by_cases ha : a = k
    · subst ha
      have h0 : records_for m a = 0 := by
        apply records_for_eq_zero
        intro p hp hpa
        have := hs.1 p hp
        rw [hpa] at this
        exact lt_irrefl _ this
      unfold records_for at h0 ⊢
      simp [List.filter_cons, h0]
    · have := ih hs.2 (by simpa [find, ha] using h)
      unfold records_for at this ⊢
      simp [List.filter_cons, ha, this]

lemma mem_insert_node (m : server_map) (k : String) (v : server_status_t)
    (p : String × server_status_t) :
    p ∈ insert_node m k v ↔ p = (k, v) ∨ p ∈ m := by
  induction m with
  | nil => simp [insert_node]
  | cons q m ih =>
    obtain ⟨a, b⟩ := q
    by_cases h2 : k.data < a.data
    · simp [insert_node, h2]
    · simp [insert_node, h2, ih]
      tauto

lemma length_insert_node (m : server_map) (k : String) (v : server_status_t) :
    (insert_node m k v).length = m.length + 1 := by
  induction m with
  | nil => simp [insert_node]
  | cons q m ih =>
    obtain ⟨a, b⟩ := q
    by_cases h2 : k.data < a.data
    · simp [insert_node, h2]
    · simp [insert_node, h2, ih]

lemma sorted_insert_node (m : server_map) (k : String) (v : server_status_t)
    (hs : sorted_keys m) (h : find m k = none) : sorted_keys (insert_node m k v) := by
  induction m with
  | nil => simp [insert_node, sorted_keys]
  | cons q m ih =>
    obtain ⟨a, b⟩ := q
    unfold sorted_keys at hs ih ⊢
    have hs' := List.pairwise_cons.1 hs
    have hak : ¬ a = k := by
      intro e
      simp [find, e] at h
    have hk' : find m k = none := by simpa [find, hak] using h
    by_cases h2 : k.data < a.data
    · simp only [insert_node, h2, if_true]
      refine List.pairwise_cons.2 ⟨?_, hs⟩
      intro p hp
      rcases List.mem_cons.1 hp with rfl | hp
      · exact h2
      · exact lt_trans h2 (hs'.1 p hp)
    · simp only [insert_node, h2, if_false]
      refine List.pairwise_cons.2 ⟨?_, ih hs'.2 hk'⟩
      intro p hp
      rcases (mem_insert_node m k v p).1 hp with rfl | hp
      · have hne : a.data ≠ k.data := fun e => hak (String.ext e)
        rcases lt_trichotomy a.data k.data with hlt | heq | hgt
        · exact hlt
        · exact absurd heq hne
        · exact absurd hgt h2
      · exact hs'.1 p hp

lemma sorted_try_emplace (m : server_map) (k : String) (v : server_status_t)
    (hs : sorted_keys m) : sorted_keys (try_emplace m k v) := by
  unfold try_emplace
  cases hf : find m k with
  | some r => simpa using hs
  | none => simpa using sorted_insert_node m k v hs hf

lemma recv_str_datagram_of (s : String) : recv_str (datagram_of s) = s := by
  show String.mk (List.take (Int.toNat (s.data.length : Int)) s.data) = s
  rw [Int.toNat_ofNat, List.take_length]

/-! ## One pass of the heartbeat client loop -/

lemma find_stopPings (servers : server_map) (key k : String) :
    find (stopPings servers key) k =
      if key = k then
        some { (find servers key).getD value_init with status := false, failed_pings := 0 }
      else find servers k := by
  unfold stopPings
  by_cases h : key = k
  · subst h
    simp [find_subscript_assign]
  · simp [find_subscript_assign, h]

lemma cycle_offline (servers : server_map) (key : String) (ok : Bool) (now : Int)
    (h : ((find servers key).getD value_init).status = false) :
    (startPings_cycle servers key ok now).pinged = false ∧
      (startPings_cycle servers key ok now).running = false ∧
      ∀ k, k ≠ key → find (startPings_cycle servers key ok now).servers k = find servers k := by
  refine ⟨?_, ?_, ?_⟩
  · simp [startPings_cycle, subscript_read, find_try_emplace, h]
  · simp [startPings_cycle, subscript_read, find_try_emplace, h]
  · intro k hk
    simp [startPings_cycle, subscript_read, find_try_emplace, h, Ne.symm hk]

lemma cycle_success (servers : server_map) (key : String) (now : Int)
    (r : server_status_t) (h : find servers key = some r) (hs : r.status = true) :
    (startPings_cycle servers key true now).pinged = true ∧
      (startPings_cycle servers key true now).running = true ∧
      find (startPings_cycle servers key true now).servers key =
        some { r with failed_pings := 0, last_ping := now } ∧
      ∀ k, k ≠ key → find (startPings_cycle servers key true now).servers k = find servers k := by
  refine ⟨?_, ?_, ?_, ?_⟩
  · simp [startPings_cycle, subscript_read, find_try_emplace, find_subscript_assign, h, hs,
      MaintainingApiClient.Ping]
  · simp [startPings_cycle, subscript_read, find_try_emplace, find_subscript_assign, h, hs,
      MaintainingApiClient.Ping]
  · simp [startPings_cycle, subscript_read, find_try_emplace, find_subscript_assign, h, hs,
      MaintainingApiClient.Ping]
  · intro k hk
    simp [startPings_cycle, subscript_read, find_try_emplace, find_subscript_assign, h, hs,
      MaintainingApiClient.Ping, Ne.symm hk]

lemma cycle_failure_below (servers : server_map) (key : String) (now : Int)
    (r : server_status_t) (h : find servers key = some r) (hs : r.status = true)
    (hc : r.failed_pings + 1 < 3) :
    (startPings_cycle servers key false now).pinged = true ∧
      (startPings_cycle servers key false now).running = true ∧
      find (startPings_cycle servers key false now).servers key =
        some { r with failed_pings := r.failed_pings + 1 } ∧
      ∀ k, k ≠ key → find (startPings_cycle servers key false now).servers k = find servers k := by
  have hc' : ¬ (3 ≤ r.failed_pings + 1) := by omega
  refine ⟨?_, ?_, ?_, ?_⟩
  · simp [startPings_cycle, subscript_read, find_try_emplace, find_subscript_assign, h, hs,
      MaintainingApiClient.Ping, hc']
  · simp [startPings_cycle, subscript_read, find_try_emplace, find_subscript_assign, h, hs,
      MaintainingApiClient.Ping, hc']
  · simp [startPings_cycle, subscript_read, find_try_emplace, find_subscript_assign, h, hs,
      MaintainingApiClient.Ping, hc']
  · intro k hk
    simp [startPings_cycle, subscript_read, find_try_emplace, find_subscript_assign, h, hs,
      MaintainingApiClient.Ping, hc', Ne.symm hk]

lemma cycle_failure_third (servers : server_map) (key : String) (now : Int)
    (r : server_status_t) (h : find servers key = some r) (hs : r.status = true)
    (hc : 3 ≤ r.failed_pings + 1) :
    (startPings_cycle servers key false now).pinged = true ∧
      (startPings_cycle servers key false now).running = false ∧
      find (startPings_cycle servers key false now).servers key =
        some { r with status := false, failed_pings := 0 } ∧
      ∀ k, k ≠ key → find (startPings_cycle servers key false now).servers k = find servers k := by
  refine ⟨?_, ?_, ?_, ?_⟩
  · simp [startPings_cycle, subscript_read, find_try_emplace, find_subscript_assign, h, hs,
      MaintainingApiClient.Ping, hc]
  · simp [startPings_cycle, subscript_read, find_try_emplace, find_subscript_assign, h, hs,
      MaintainingApiClient.Ping, hc]
  · simp [startPings_cycle, subscript_read, find_try_emplace, find_subscript_assign, h, hs,
      MaintainingApiClient.Ping, hc, find_stopPings]
  · intro k hk
    simp [startPings_cycle, subscript_read, find_try_emplace, find_subscript_assign, h, hs,
      MaintainingApiClient.Ping, hc, find_stopPings, Ne.symm hk]

/-! ## Runs of three failures -/

lemma three_failures_skip (c : Nat) (hc : c ≤ 2) (rest : List Bool) (m : Nat) :
    three_failures_end_at (List.replicate c false ++ true :: rest) m ↔
      ∃ m', m = m' + c + 1 ∧ three_failures_end_at rest m' := by
  constructor
  · rintro ⟨pre, post, h, hm⟩
    have hc3 : c = 0 ∨ c = 1 ∨ c = 2 := by omega
    rcases hc3 with rfl | rfl | rfl
    · rcases pre with _ | ⟨x, pre⟩
      · simp at h
      · simp only [List.replicate, List.nil_append, List.cons_append, List.cons.injEq] at h
        exact ⟨pre.length + 3, by simp at hm; omega, pre, post, h.2, rfl⟩
    · rcases pre with _ | ⟨x, _ | ⟨y, pre⟩⟩
      · simp [List.replicate] at h
      · simp [List.replicate] at h
      · simp only [List.replicate, List.nil_append, List.cons_append, List.cons.injEq] at h
        exact ⟨pre.length + 3, by simp at hm; omega, pre, post, h.2.2, rfl⟩
    · rcases pre with _ | ⟨x, _ | ⟨y, _ | ⟨z, pre⟩⟩⟩
      · simp [List.replicate] at h
      · simp [List.replicate] at h
      · simp [List.replicate] at h
      · simp only [List.replicate, List.nil_append, List.cons_append, List.cons.injEq] at h
        exact ⟨pre.length + 3, by simp at hm; omega, pre, post, h.2.2.2, rfl⟩
  · rintro ⟨m', rfl, pre, post, h, hm⟩
    refine ⟨List.replicate c false ++ true :: pre, post, ?_, ?_⟩
    · simp [h]
    · simp
      omega

lemma three_failures_length (l : List Bool) (m : Nat) (h : three_failures_end_at l m) :
    3 ≤ m ∧ m ≤ l.length := by
  obtain ⟨pre, post, rfl, hm⟩ := h
  simp
  omega

lemma first_stop_spec (l : List Bool) :
    ∀ c : Nat, c ≤ 2 →
      (∀ n, first_stop c l = some n →
        three_failures_end_at (List.replicate c false ++ l) (n + c) ∧
        ∀ m, m < n + c → ¬ three_failures_end_at (List.replicate c false ++ l) m) ∧
      (first_stop c l = none →
        ∀ m, ¬ three_failures_end_at (List.replicate c false ++ l) m) := by
  induction l with
  | nil =>
    intro c hc
    refine ⟨fun n h => by simp [first_stop] at h, fun _ m hm => ?_⟩
    have := three_failures_length _ _ hm
    simp at this
    omega
  | cons b rest ih =>
    intro c hc
    cases b with
    | true =>
      obtain ⟨ih1, ih2⟩ := ih 0 (by omega)
      simp only [List.replicate, List.nil_append] at ih1 ih2
      refine ⟨fun n h => ?_, fun h m hm => ?_⟩
      · simp only [first_stop, Option.map_eq_some'] at h
        obtain ⟨n', hn', rfl⟩ := h
        obtain ⟨h1, h2⟩ := ih1 n' hn'
        refine ⟨(three_failures_skip c hc rest _).2 ⟨n', by omega, by simpa using h1⟩, ?_⟩
        intro m hm hmm
        obtain ⟨m', rfl, hm'⟩ := (three_failures_skip c hc rest m).1 hmm
        exact h2 m' (by omega) hm'
      · simp only [first_stop, Option.map_eq_none'] at h
        obtain ⟨m', rfl, hm'⟩ := (three_failures_skip c hc rest m).1 hm
        exact ih2 h m' hm'
    | false =>
      by_cases h3 : c + 1 ≥ 3
      · have hc2 : c = 2 := by omega
        subst hc2
        refine ⟨fun n h => ?_, fun h => by simp [first_stop] at h⟩
        simp only [first_stop, ge_iff_le, le_refl, if_true, Option.some.injEq] at h
        subst h
        refine ⟨⟨[], rest, by simp [List.replicate], by simp⟩, fun m hm hmm => ?_⟩
        have := (three_failures_length _ _ hmm).1
        omega
      · have hrw : List.replicate c false ++ false :: rest =
            List.replicate (c + 1) false ++ rest := by
          rw [List.replicate_succ', List.append_assoc]
          rfl
        obtain ⟨ih1, ih2⟩ := ih (c + 1) (by omega)
        rw [hrw]
        refine ⟨fun n h => ?_, fun h => ?_⟩
        · simp only [first_stop, h3, if_false, Option.map_eq_some'] at h
          obtain ⟨n', hn', rfl⟩ := h
          obtain ⟨h1, h2⟩ := ih1 n' hn'
          have e : n' + 1 + c = n' + (c + 1) := by omega
          rw [e]
          exact ⟨h1, h2⟩
        · simp only [first_stop, h3, if_false, Option.map_eq_none'] at h
          exact ih2 h

/-! ## The heartbeat client loop over a sequence of outcomes -/

lemma startPings_fold_stopped (key : String) (l : List (Bool × Int)) (s : server_map)
    (p : Nat) : l.foldl (startPings_step key) ⟨s, false, p⟩ = ⟨s, false, p⟩ := by
  induction l with
  | nil => rfl
  | cons o l ih => simpa [List.foldl, startPings_step] using ih

lemma startPings_fold (key : String) (outcomes : List (Bool × Int)) :
    ∀ (servers : server_map) (r : server_status_t) (c p : Nat),
      find servers key = some r → r.status = true → r.failed_pings = (c : Int) → c ≤ 2 →
      (∀ n, first_stop c (outcomes.map Prod.fst) = some n →
        (outcomes.foldl (startPings_step key) ⟨servers, true, p⟩).running = false ∧
        (outcomes.foldl (startPings_step key) ⟨servers, true, p⟩).pings = p + n ∧
        n ≤ outcomes.length ∧
        (∃ r', find (outcomes.foldl (startPings_step key) ⟨servers, true, p⟩).servers key
            = some r' ∧ r'.status = false ∧ r'.failed_pings = 0) ∧
        (outcomes.take n).foldl (startPings_step key) ⟨servers, true, p⟩ =
          outcomes.foldl (startPings_step key) ⟨servers, true, p⟩) ∧
      (first_stop c (outcomes.map Prod.fst) = none →
        (outcomes.foldl (startPings_step key) ⟨servers, true, p⟩).running = true ∧
        (outcomes.foldl (startPings_step key) ⟨servers, true, p⟩).pings
          = p + outcomes.length ∧
        ∃ r', find (outcomes.foldl (startPings_step key) ⟨servers, true, p⟩).servers key
            = some r' ∧ r'.status = true ∧ 0 ≤ r'.failed_pings ∧ r'.failed_pings ≤ 2) := by
  induction outcomes with
  | nil =>
    intro servers r c p h hs hc hc2
    refine ⟨fun n hn => by simp [first_stop] at hn, fun _ => ?_⟩
    exact ⟨rfl, rfl, r, h, hs, by omega, by omega⟩
  | cons o rest ih =>
    intro servers r c p h hs hc hc2
    obtain ⟨ok, now⟩ := o
    cases ok with
    | true =>
      obtain ⟨c1, c2, c3, -⟩ := cycle_success servers key now r h hs
      have hstep : startPings_step key ⟨servers, true, p⟩ (true, now) =
          ⟨(startPings_cycle servers key true now).servers, true, p + 1⟩ := by
        simp [startPings_step, c1, c2]
      obtain ⟨ih1, ih2⟩ := ih (startPings_cycle servers key true now).servers _ 0 (p + 1)
        c3 hs (by simp) (by omega)
      simp only [List.foldl, List.map, hstep, first_stop]
      refine ⟨fun n hn => ?_, fun hn => ?_⟩
      · simp only [Option.map_eq_some'] at hn
        obtain ⟨n', hn', rfl⟩ := hn
        obtain ⟨a1, a2, a3, a4, a5⟩ := ih1 n' hn'
        refine ⟨a1, by omega, by simp; omega, a4, ?_⟩
        simp only [List.take_succ_cons, List.foldl, hstep]
        exact a5
      · simp only [Option.map_eq_none'] at hn
        obtain ⟨a1, a2, a3⟩ := ih2 hn
        exact ⟨a1, by simp; omega, a3⟩
    | false =>
      by_cases h3 : c + 1 ≥ 3
      · obtain ⟨c1, c2, c3, -⟩ := cycle_failure_third servers key now r h hs (by omega)
        have hstep : startPings_step key ⟨servers, true, p⟩ (false, now) =
            ⟨(startPings_cycle servers key false now).servers, false, p + 1⟩ := by
          simp [startPings_step, c1, c2]
        simp only [List.foldl, List.map, hstep, first_stop, h3, if_true,
          startPings_fold_stopped]
        refine ⟨fun n hn => ?_, fun hn => by simp at hn⟩
        simp only [Option.some.injEq] at hn
        subst hn
        refine ⟨trivial, rfl, by simp, ⟨_, c3, rfl, rfl⟩, ?_⟩
        simp [List.foldl, hstep]
      · obtain ⟨c1, c2, c3, -⟩ := cycle_failure_below servers key now r h hs (by omega)
        have hstep : startPings_step key ⟨servers, true, p⟩ (false, now) =
            ⟨(startPings_cycle servers key false now).servers, true, p + 1⟩ := by
          simp [startPings_step, c1, c2]
        obtain ⟨ih1, ih2⟩ := ih (startPings_cycle servers key false now).servers _ (c + 1)
          (p + 1) c3 hs (by simp [hc]) (by omega)
        simp only [List.foldl, List.map, hstep, first_stop, h3, if_false]
        refine ⟨fun n hn => ?_, fun hn => ?_⟩
        · simp only [Option.map_eq_some'] at hn
          obtain ⟨n', hn', rfl⟩ := hn
          obtain ⟨a1, a2, a3, a4, a5⟩ := ih1 n' hn'
          refine ⟨a1, by omega, by simp; omega, a4, ?_⟩
          simp only [List.take_succ_cons, List.foldl, hstep]
          exact a5
        · simp only [Option.map_eq_none'] at hn
          obtain ⟨a1, a2, a3⟩ := ih2 hn
          exact ⟨a1, by simp; omega, a3⟩

lemma three_failures_of_take (l : List Bool) (k m : Nat)
    (h : three_failures_end_at (l.take k) m) : three_failures_end_at l m := by
  obtain ⟨pre, post, e, hm⟩ := h
  refine ⟨pre, post ++ l.drop k, ?_, hm⟩
  have := List.take_append_drop k l
  rw [e] at this
  simpa [List.append_assoc] using this.symm

/-! ## Theorems about the observer -/

/-- C1. A pinger thread started on a peer that is Online with a failure
count of 0, and fed any finite sequence of ping outcomes: if position `n` is
the first at which three failures in a row are complete, the thread has left
its loop with the peer Offline, it was still looping with one ping per
outcome after every shorter prefix, it has issued exactly `n` pings, the
outcomes after position `n` change nothing, and a further pass over the final
registry would issue no ping. If there is no such position, the thread is
still looping and has issued one ping per outcome. -/
theorem startPings_stops_at_third_failure (servers : server_map) (key : String)
    (outcomes : List (Bool × Int)) (r : server_status_t)
    (h : find servers key = some r) (hon : r.status = true) (hzero : r.failed_pings = 0) :
    (∀ n, three_failures_end_at (outcomes.map Prod.fst) n →
        (∀ m, m < n → ¬ three_failures_end_at (outcomes.map Prod.fst) m) →
        (startPings servers key outcomes).running = false ∧
        (startPings servers key outcomes).pings = n ∧
        (∃ r', find (startPings servers key outcomes).servers key = some r' ∧
          r'.status = false) ∧
        (∀ k, k < n → (startPings servers key (outcomes.take k)).running = true ∧
          (startPings servers key (outcomes.take k)).pings = k) ∧
        startPings servers key (outcomes.take n) = startPings servers key outcomes ∧
        ∀ ok now,
          (startPings_cycle (startPings servers key outcomes).servers key ok now).pinged
            = false) ∧
    ((∀ n, ¬ three_failures_end_at (outcomes.map Prod.fst) n) →
        (startPings servers key outcomes).running = true ∧
        (startPings servers key outcomes).pings = outcomes.length) := by
  have hfold := fun l => startPings_fold key l servers r 0 0 h hon (by simp [hzero]) (by omega)
  have hspec := fun l => first_stop_spec l 0 (by omega)
  simp only [List.replicate, List.nil_append, Nat.add_zero] at hspec
  unfold startPings
  constructor
  · intro n hn hmin
    cases hfs : first_stop 0 (outcomes.map Prod.fst) with
    | none => exact absurd hn ((hspec _).2 hfs n)
    | some n' =>
      obtain ⟨s1, s2⟩ := (hspec _).1 n' hfs
      have hnn : n' = n := by
        rcases Nat.lt_trichotomy n' n with hlt | heq | hgt
        · exact absurd s1 (hmin n' hlt)
        · exact heq
        · exact absurd hn (s2 n hgt)
      subst hnn
      obtain ⟨a1, a2, a3, ⟨r', a4, a5, a6⟩, a7⟩ := (hfold outcomes).1 n' hfs
      refine ⟨a1, by simpa using a2, ⟨r', a4, a5⟩, ?_, a7, ?_⟩
      · intro k hk
        have hnone : first_stop 0 ((outcomes.take k).map Prod.fst) = none := by
          cases hk' : first_stop 0 ((outcomes.take k).map Prod.fst) with
          | none => rfl
          | some j =>
            exfalso
            obtain ⟨t1, -⟩ := (hspec _).1 j hk'
            have hj := (three_failures_length _ _ t1).2
            rw [List.map_take] at t1
            have := three_failures_of_take _ _ _ t1
            simp at hj
            exact s2 j (by omega) this
        obtain ⟨b1, b2, -⟩ := (hfold (outcomes.take k)).2 hnone
        refine ⟨b1, ?_⟩
        rw [b2]
        simp
        omega
      · intro ok now
        exact (cycle_offline _ key ok now (by simp [a4, a5])).1
  · intro hno
    cases hfs : first_stop 0 (outcomes.map Prod.fst) with
    | none =>
      obtain ⟨b1, b2, -⟩ := (hfold outcomes).2 hfs
      exact ⟨b1, by simpa using b2⟩
    | some n' => exact absurd ((hspec _).1 n' hfs).1 (hno n')

/-- C2. From a peer that is Online with a failure count of 0, one failed
cycle, or two failed cycles in a row, leave the thread in its loop and the
record Online with a failure count of 1, respectively 2, and an unchanged
time of last ping. -/
theorem startPings_one_or_two_failures (servers : server_map) (key : String)
    (r : server_status_t) (t1 t2 : Int)
    (h : find servers key = some r) (hon : r.status = true) (hzero : r.failed_pings = 0) :
    ((startPings servers key [(false, t1)]).running = true ∧
      find (startPings servers key [(false, t1)]).servers key
        = some ⟨r.last_ping, true, 1⟩) ∧
    ((startPings servers key [(false, t1), (false, t2)]).running = true ∧
      find (startPings servers key [(false, t1), (false, t2)]).servers key
        = some ⟨r.last_ping, true, 2⟩) := by
  obtain ⟨c1, c2, c3, -⟩ := cycle_failure_below servers key t1 r h hon (by omega)
  have hstep : startPings_step key ⟨servers, true, 0⟩ (false, t1) =
      ⟨(startPings_cycle servers key false t1).servers, true, 1⟩ := by
    simp [startPings_step, c1, c2]
  obtain ⟨d1, d2, d3, -⟩ := cycle_failure_below _ key t2 _ c3 hon (by simp [hzero])
  have hstep2 : startPings_step key
      ⟨(startPings_cycle servers key false t1).servers, true, 1⟩ (false, t2) =
      ⟨(startPings_cycle (startPings_cycle servers key false t1).servers key false t2).servers,
        true, 2⟩ := by
    simp [startPings_step, d1, d2]
  refine ⟨⟨?_, ?_⟩, ⟨?_, ?_⟩⟩
  · simp [startPings, hstep]
  · simp [startPings, hstep, c3, hon, hzero]
  · simp [startPings, hstep, hstep2]
  · simp [startPings, hstep, hstep2, d3, hon, hzero]

/-- C3. For a peer that is Online, whatever its failure count (0, 1 and 2
included), one cycle whose ping succeeds issues that ping, stores a failure
count of 0 (a reset, not a decrement) and the current time as time of last
ping, leaves the status Online, and the loop goes on to its next cycle. -/
theorem startPings_cycle_success_resets (servers : server_map) (key : String)
    (r : server_status_t) (now : Int)
    (h : find servers key = some r) (hon : r.status = true) :
    (startPings_cycle servers key true now).pinged = true ∧
    (startPings_cycle servers key true now).running = true ∧
    find (startPings_cycle servers key true now).servers key = some ⟨now, true, 0⟩ := by
  obtain ⟨c1, c2, c3, -⟩ := cycle_success servers key now r h hon
  exact ⟨c1, c2, by simpa [hon] using c3⟩

/-- Witness for C1: the end-to-end scenario, three successful pings, three
failed ones, and a seventh outcome that is never asked for. -/
theorem startPings_stops_at_third_failure_witness :
    (startPings connected_registry peer_address
      [(true, 5), (true, 10), (true, 15), (false, 20), (false, 25), (false, 30),
        (true, 35)]).pings = 6 :=
  ((startPings_stops_at_third_failure connected_registry peer_address
      [(true, 5), (true, 10), (true, 15), (false, 20), (false, 25), (false, 30), (true, 35)]
      ⟨0, true, 0⟩ (by decide) rfl rfl).1 6
      ⟨[true, true, true], [true], rfl, rfl⟩
      (by
        rintro m hm ⟨pre, post, e, hl⟩
        rcases pre with _ | ⟨a, _ | ⟨b, _ | ⟨c, pre⟩⟩⟩
        · simp at e
        · simp at e
        · simp at e
        · simp at hl
          omega)).2.1

/-- Witness for C2 on the registry of the end-to-end scenario. -/
theorem startPings_one_or_two_failures_witness :
    find (startPings connected_registry peer_address [(false, 5), (false, 10)]).servers
      peer_address = some ⟨0, true, 2⟩ :=
  (startPings_one_or_two_failures connected_registry peer_address ⟨0, true, 0⟩ 5 10
    (by decide) rfl rfl).2.2

/-- Witness for C3: a success after two failures. -/
theorem startPings_cycle_success_resets_witness :
    find (startPings_cycle [(peer_address, ⟨0, true, 2⟩)] peer_address true 77).servers
      peer_address = some ⟨77, true, 0⟩ :=
  (startPings_cycle_success_resets [(peer_address, ⟨0, true, 2⟩)] peer_address
    ⟨0, true, 2⟩ 77 (by decide) rfl).2.2

/-- C4. Handling a datagram of positive length whose text is `s`: handling it
a second time changes nothing more; the registry then holds exactly one
record under `s` and its keys are still in order; if `s` was not a key the
record under `s` is Offline, never pinged, with no failures; if `s` was a key
the registry is the one before; the record of every other key is the one
before. -/
theorem udp_receive_idempotent (servers : server_map) (d : Datagram) (s : String)
    (hsorted : sorted_keys servers) (hlen : d.len > 0) (hs : recv_str d = s) :
    udp_receive (udp_receive servers d) d = udp_receive servers d ∧
    records_for (udp_receive servers d) s = 1 ∧
    sorted_keys (udp_receive servers d) ∧
    (find servers s = none → find (udp_receive servers d) s = some ⟨0, false, 0⟩) ∧
    (∀ r, find servers s = some r → udp_receive servers d = servers) ∧
    (∀ k, k ≠ s → find (udp_receive servers d) k = find servers k) := by
  subst hs
  have hu : ∀ m, udp_receive m d = try_emplace m (recv_str d) ⟨0, false, 0⟩ := by
    intro m
    simp [udp_receive, hlen]
  simp only [hu]
  refine ⟨?_, ?_, sorted_try_emplace _ _ _ hsorted, ?_, ?_, ?_⟩
  · have hf := find_try_emplace servers (recv_str d) (recv_str d) ⟨0, false, 0⟩
    simp only [if_true] at hf
    exact try_emplace_of_find_some _ _ _ _ hf
  · have hf := find_try_emplace servers (recv_str d) (recv_str d) ⟨0, false, 0⟩
    simp only [if_true] at hf
    exact records_for_of_find_some _ _ _ (sorted_try_emplace _ _ _ hsorted) hf
  · intro hnone
    simp [find_try_emplace, hnone]
  · intro r hr
    exact try_emplace_of_find_some _ _ _ _ hr
  · intro k hk
    simp [find_try_emplace, Ne.symm hk]

/-- Witness for C4: the announcement of the end-to-end scenario, received by a
registry that knows one other peer. -/
theorem udp_receive_idempotent_witness :
    records_for
      (udp_receive [("10.0.0.7:50051", ⟨0, false, 0⟩)] (datagram_of peer_address))
      peer_address = 1 :=
  (udp_receive_idempotent [("10.0.0.7:50051", ⟨0, false, 0⟩)] (datagram_of peer_address)
    peer_address (by simp [sorted_keys]) (by decide) (by decide)).2.1

/-- Counterexample to C5: the payload `garbage` has no colon in it, and
handling it in an empty registry creates a record for it. -/
theorem udp_receive_malformed_counterexample :
    has_host_port_form (recv_str (datagram_of "garbage")) = false ∧
    udp_receive [] (datagram_of "garbage") = [("garbage", ⟨0, false, 0⟩)] ∧
    udp_receive [] (datagram_of "garbage") ≠ [] := by
  decide

/-- C5, amended. Handling a datagram leaves the registry unchanged exactly
when the returned length is not positive or the text received is already a
key; the form of the text plays no part: every text of positive length that
is not yet a key gets a record that is Offline, never pinged, with no
failures. -/
theorem udp_receive_unchanged_iff (servers : server_map) (d : Datagram) :
    (udp_receive servers d = servers ↔
      d.len ≤ 0 ∨ (find servers (recv_str d)).isSome = true) ∧
    (0 < d.len → find servers (recv_str d) = none →
      find (udp_receive servers d) (recv_str d) = some ⟨0, false, 0⟩) := by
  constructor
  · by_cases hlen : d.len > 0
    · have hu : udp_receive servers d = try_emplace servers (recv_str d) ⟨0, false, 0⟩ := by
        simp [udp_receive, hlen]
      rw [hu]
      cases hf : find servers (recv_str d) with
      | some r =>
        simp [try_emplace_of_find_some _ _ _ _ hf]
      | none =>
        have hne : try_emplace servers (recv_str d) ⟨0, false, 0⟩ ≠ servers := by
          intro e
          have := congrArg List.length e
          simp [try_emplace, hf, length_insert_node] at this
        simp [hne]
        omega
    · have hle : d.len ≤ 0 := by omega
      simp [udp_receive, hlen, hle]
  · intro hlen hnone
    have hu : udp_receive servers d = try_emplace servers (recv_str d) ⟨0, false, 0⟩ := by
      simp [udp_receive, hlen]
    rw [hu]
    simp [find_try_emplace, hnone]

/-- Witness for C5, amended: an empty datagram changes nothing, and the text
`garbage` gets its record. -/
theorem udp_receive_unchanged_iff_witness :
    udp_receive connected_registry ⟨[], 0⟩ = connected_registry ∧
    find (udp_receive connected_registry (datagram_of "garbage")) "garbage"
      = some ⟨0, false, 0⟩ :=
  ⟨(udp_receive_unchanged_iff connected_registry ⟨[], 0⟩).1.2 (Or.inl (by decide)),
   (udp_receive_unchanged_iff connected_registry (datagram_of "garbage")).2
     (by decide) (by decide)⟩

/-- C10. The method `stopPings` leaves under `key` the record that was there
(a value-initialised one if there was none) with status Offline and a
failure count of 0, its time of last ping untouched, and leaves the record of
every other key as it was; the "Disconnect" action, which ends in
`stopPings`, leaves the same record. For a pinger thread started on a peer
that is Online with a failure count of 0: three failed cycles in a row from
the start make the thread leave its loop after 3 pings with the record Offline,
the stored failure count 0 (not 3) and the time of last ping untouched;
whenever the outcomes contain three failures in a row the thread has left its
loop and the stored record is Offline with a failure count of 0; and after any
number of cycles the stored failure count is between 0 and 2. -/
theorem stopPings_frame (servers : server_map) (key : String) :
    find (stopPings servers key) key =
      some { (find servers key).getD value_init with status := false, failed_pings := 0 } ∧
    (∀ r, find servers key = some r →
      find (stopPings servers key) key = some ⟨r.last_ping, false, 0⟩) ∧
    (∀ k, k ≠ key → find (stopPings servers key) k = find servers k) ∧
    find (disconnect_action servers key) key = find (stopPings servers key) key ∧
    (∀ (r : server_status_t) (t1 t2 t3 : Int),
      find servers key = some r → r.status = true → r.failed_pings = 0 →
      (startPings servers key [(false, t1), (false, t2), (false, t3)]).running = false ∧
      (startPings servers key [(false, t1), (false, t2), (false, t3)]).pings = 3 ∧
      find (startPings servers key [(false, t1), (false, t2), (false, t3)]).servers key
        = some ⟨r.last_ping, false, 0⟩) ∧
    (∀ (r : server_status_t) (outcomes : List (Bool × Int)) (n : Nat),
      find servers key = some r → r.status = true → r.failed_pings = 0 →
      three_failures_end_at (outcomes.map Prod.fst) n →
      (startPings servers key outcomes).running = false ∧
      ∃ r', find (startPings servers key outcomes).servers key = some r' ∧
        r'.failed_pings = 0 ∧ r'.status = false) ∧
    (∀ (r : server_status_t) (outcomes : List (Bool × Int)),
      find servers key = some r → r.status = true → r.failed_pings = 0 →
      ∃ r', find (startPings servers key outcomes).servers key = some r' ∧
        0 ≤ r'.failed_pings ∧ r'.failed_pings ≤ 2 ∧
        ((startPings servers key outcomes).running = false →
          r'.failed_pings = 0 ∧ r'.status = false)) := by
  refine ⟨?_, ?_, ?_, ?_, ?_, ?_, ?_⟩
  · simp [find_stopPings]
  · intro r hr
    simp [find_stopPings, hr]
  · intro k hk
    simp [find_stopPings, Ne.symm hk]
  · simp [disconnect_action, find_stopPings, find_subscript_assign]
  · intro r t1 t2 t3 h hon hzero
    obtain ⟨c1, c2, c3, -⟩ := cycle_failure_below servers key t1 r h hon (by omega)
    have hstep : startPings_step key ⟨servers, true, 0⟩ (false, t1) =
        ⟨(startPings_cycle servers key false t1).servers, true, 1⟩ := by
      simp [startPings_step, c1, c2]
    obtain ⟨d1, d2, d3, -⟩ := cycle_failure_below _ key t2 _ c3 hon (by simp [hzero])
    have hstep2 : startPings_step key
        ⟨(startPings_cycle servers key false t1).servers, true, 1⟩ (false, t2) =
        ⟨(startPings_cycle (startPings_cycle servers key false t1).servers key false
            t2).servers, true, 2⟩ := by
      simp [startPings_step, d1, d2]
    obtain ⟨e1, e2, e3, -⟩ := cycle_failure_third _ key t3 _ d3 hon (by simp [hzero])
    have hstep3 : startPings_step key
        ⟨(startPings_cycle (startPings_cycle servers key false t1).servers key false
            t2).servers, true, 2⟩ (false, t3) =
        ⟨(startPings_cycle (startPings_cycle (startPings_cycle servers key false
            t1).servers key false t2).servers key false t3).servers, false, 3⟩ := by
      simp [startPings_step, e1, e2]
    refine ⟨?_, ?_, ?_⟩
    · simp [startPings, hstep, hstep2, hstep3]
    · simp [startPings, hstep, hstep2, hstep3]
    · simp [startPings, hstep, hstep2, hstep3, e3]
  · intro r outcomes n h hon hzero hrun
    have hfold := startPings_fold key outcomes servers r 0 0 h hon (by simp [hzero])
      (by omega)
    have hspec := first_stop_spec (outcomes.map Prod.fst) 0 (by omega)
    simp only [List.replicate, List.nil_append, Nat.add_zero] at hspec
    unfold startPings
    cases hfs : first_stop 0 (outcomes.map Prod.fst) with
    | none => exact absurd hrun (hspec.2 hfs n)
    | some n' =>
      obtain ⟨a1, -, -, ⟨r', a4, a5, a6⟩, -⟩ := hfold.1 n' hfs
      exact ⟨a1, r', a4, a6, a5⟩
  · intro r outcomes h hon hzero
    have hfold := startPings_fold key outcomes servers r 0 0 h hon (by simp [hzero])
      (by omega)
    unfold startPings
    cases hfs : first_stop 0 (outcomes.map Prod.fst) with
    | none =>
      obtain ⟨b1, -, r', b3, b4, b5, b6⟩ := hfold.2 hfs
      exact ⟨r', b3, b5, b6, fun hstop => by simp [b1] at hstop⟩
    | some n =>
      obtain ⟨-, -, -, ⟨r', a4, a5, a6⟩, -⟩ := hfold.1 n hfs
      exact ⟨r', a4, by omega, by omega, fun _ => ⟨a6, a5⟩⟩

/-- Witness for C10: after the three failures of the end-to-end scenario the
thread has left its loop after 3 pings and the stored record is Offline with
a failure count of 0; the same holds when three successes come first. -/
theorem stopPings_frame_witness :
    ((startPings connected_registry peer_address
        [(false, 20), (false, 25), (false, 30)]).running = false ∧
      (startPings connected_registry peer_address
        [(false, 20), (false, 25), (false, 30)]).pings = 3 ∧
      find (startPings connected_registry peer_address
        [(false, 20), (false, 25), (false, 30)]).servers peer_address
        = some ⟨0, false, 0⟩) ∧
    ((startPings connected_registry peer_address
        [(true, 5), (true, 10), (true, 15), (false, 20), (false, 25),
          (false, 30)]).running = false ∧
      ∃ r', find (startPings connected_registry peer_address
          [(true, 5), (true, 10), (true, 15), (false, 20), (false, 25),
            (false, 30)]).servers peer_address = some r' ∧
        r'.failed_pings = 0 ∧ r'.status = false) :=
  ⟨(stopPings_frame connected_registry peer_address).2.2.2.2.1 ⟨0, true, 0⟩ 20 25 30
      (by decide) rfl rfl,
   (stopPings_frame connected_registry peer_address).2.2.2.2.2.1 ⟨0, true, 0⟩
      [(true, 5), (true, 10), (true, 15), (false, 20), (false, 25), (false, 30)] 6
      (by decide) rfl rfl ⟨[true, true, true], [], rfl, rfl⟩⟩

end Client

/-! ## Theorems about the announcer -/

namespace Server

lemma duration_cast_seconds_ge (d : Int) :
    15 ≤ duration_cast_seconds d ↔ 15 * ticks_per_second ≤ d := by
  unfold duration_cast_seconds ticks_per_second
  by_cases hd : 0 ≤ d
  · rw [Int.tdiv_eq_ediv hd (by decide)]
    omega
  · have hneg : (0 : Int) ≤ -d := by omega
    have h1 := Int.tdiv_nonneg hneg (show (0 : Int) ≤ 1000000000 by decide)
    rw [Int.neg_tdiv] at h1
    constructor
    · intro h
      omega
    · intro h
      omega

lemma RunServer_iteration_quiet (st : Monitor) (now : Int)
    (hsame : st.service.last_ping = st.last_ping)
    (hearly : now < st.last_ping + 15 * ticks_per_second) :
    RunServer_iteration st now = st := by
  have hd : ¬ (15 ≤ duration_cast_seconds (now - st.last_ping)) := by
    rw [duration_cast_seconds_ge]
    omega
  simp [RunServer_iteration, hsame, hd]

lemma RunServer_iteration_fires (st : Monitor) (now : Int)
    (hsame : st.service.last_ping = st.last_ping) (hconn : st.connected = true)
    (hip : st.service.ip ≠ "")
    (hlate : st.last_ping + 15 * ticks_per_second ≤ now) :
    RunServer_iteration st now =
      { st with textEdit := st.textEdit ++ [st.service.ip ++ " disconnected..."],
                connected := false } := by
  have hd : 15 ≤ duration_cast_seconds (now - st.last_ping) := by
    rw [duration_cast_seconds_ge]
    omega
  have he : st.service.ip.isEmpty = false := by
    cases h : st.service.ip.isEmpty with
    | false => rfl
    | true => exact absurd ((String.isEmpty_iff _).1 h) hip
  simp [RunServer_iteration, hsame, hd, hconn, he]

lemma run_events_passes_quiet (st : Monitor) (nows : List Int)
    (hsame : st.service.last_ping = st.last_ping)
    (hearly : ∀ u ∈ nows, u < st.last_ping + 15 * ticks_per_second) :
    run_events st (passes nows) = st := by
  induction nows with
  | nil => rfl
  | cons u rest ih =>
    have h1 := RunServer_iteration_quiet st u hsame (hearly u (by simp))
    simp only [run_events, passes, List.map, List.foldl, Event.apply, h1]
    exact ih (fun v hv => hearly v (by simp [hv]))

/-- Counterexample to C6: a ping that carries the empty address is received
one second after the clock's epoch and seen by the monitor, which marks the
session connected; a pass nineteen seconds later, with no ping in between,
leaves `connected` true and appends nothing. -/
theorem RunServer_timeout_empty_address_counterexample :
    run_events Monitor.init [Event.ping (at_second 0 1) "", Event.check (at_second 0 1)]
      = ⟨⟨"", at_second 0 1⟩, at_second 0 1, true, [" connected...", "Ping!"]⟩ ∧
    15 * ticks_per_second ≤ at_second 0 20 - at_second 0 1 ∧
    RunServer_iteration
        ⟨⟨"", at_second 0 1⟩, at_second 0 1, true, [" connected...", "Ping!"]⟩
        (at_second 0 20)
      = ⟨⟨"", at_second 0 1⟩, at_second 0 1, true, [" connected...", "Ping!"]⟩ := by
  decide

/-- C6, amended. One pass of the monitor over a session whose instant of last
ping has not moved since the previous pass, that is marked connected, and
whose last ping is 15 seconds old or older: if the tracked address is not
empty the pass clears `connected` and appends the line
`<address> disconnected...`; if the tracked address is empty the pass
changes nothing. -/
theorem RunServer_iteration_timeout (st : Monitor) (now : Int)
    (hsame : st.service.last_ping = st.last_ping) (hconn : st.connected = true)
    (helapsed : 15 * ticks_per_second ≤ now - st.last_ping) :
    (st.service.ip ≠ "" →
      RunServer_iteration st now =
        { st with textEdit := st.textEdit ++ [st.service.ip ++ " disconnected..."],
                  connected := false }) ∧
    (st.service.ip = "" → RunServer_iteration st now = st) := by
  constructor
  · intro hip
    exact RunServer_iteration_fires st now hsame hconn hip (by omega)
  · intro hip
    have he : st.service.ip.isEmpty = true := by
      rw [hip]
      decide
    simp [RunServer_iteration, hsame, he]

/-- Witness for C6, amended: the address `10.0.0.9`, last ping at second 10,
pass at second 25. -/
theorem RunServer_iteration_timeout_witness :
    RunServer_iteration ⟨⟨"10.0.0.9", at_second 0 10⟩, at_second 0 10, true, ["Ping!"]⟩
        (at_second 0 25)
      = ⟨⟨"10.0.0.9", at_second 0 10⟩, at_second 0 10, false,
          ["Ping!", "10.0.0.9 disconnected..."]⟩ :=
  (RunServer_iteration_timeout
    ⟨⟨"10.0.0.9", at_second 0 10⟩, at_second 0 10, true, ["Ping!"]⟩ (at_second 0 25)
    rfl rfl (by decide)).1 (by decide)

lemma RunServer_iteration_sees_ping (st : Monitor) (now : Int)
    (hfresh : st.service.last_ping ≠ st.last_ping) :
    (RunServer_iteration st now).connected = true ∧
    (RunServer_iteration st now).last_ping = st.service.last_ping ∧
    (RunServer_iteration st now).service = st.service := by
  cases hc : st.connected <;> simp [RunServer_iteration, hfresh, hc]

set_option maxRecDepth 100000 in
lemma scenario_trace :
    (∀ s, s ≤ 24 →
      (run_events Monitor.init (scenario scenario_origin "10.0.0.9" s)).connected = true ∧
      "10.0.0.9 disconnected..." ∉
        (run_events Monitor.init (scenario scenario_origin "10.0.0.9" s)).textEdit) ∧
    run_events Monitor.init (scenario scenario_origin "10.0.0.9" 25) =
      ⟨⟨"10.0.0.9", at_second scenario_origin 10⟩, at_second scenario_origin 10, false,
        ["10.0.0.9 connected...", "Ping!", "Ping!", "Ping!",
          "10.0.0.9 disconnected..."]⟩ := by
  decide

/-- Counterexample to C7: a ping from `10.0.0.9` is received at second 10
and none after; the first pass of the monitor after it comes at second 30,
which is at or after second 25. That pass takes the branch that registers the
ping: it marks the session connected and appends the connected line and
`Ping!`, and no disconnected line. -/
theorem RunServer_disconnect_timing_counterexample :
    at_second 0 10 + 15 * ticks_per_second ≤ at_second 0 30 ∧
    run_events Monitor.init
        [Event.ping (at_second 0 10) "10.0.0.9", Event.check (at_second 0 30)] =
      ⟨⟨"10.0.0.9", at_second 0 10⟩, at_second 0 10, true,
        ["10.0.0.9 connected...", "Ping!"]⟩ ∧
    "10.0.0.9 disconnected..." ∉
      (run_events Monitor.init
        [Event.ping (at_second 0 10) "10.0.0.9", Event.check (at_second 0 30)]).textEdit := by
  decide

/-- C7, amended. In any state of the session, a ping is received at an
instant `T` later than the instant the monitor remembers, and no ping
follows. The first pass of the monitor after it, whatever its instant,
registers the ping: it marks the session connected and appends no
disconnected line. Every further pass at an instant before `T` + 15 seconds
leaves the session as it is, whatever the address: `connected` stays true
and nothing is appended. The first further pass at an instant at or after
`T` + 15 seconds clears `connected` and appends `<address> disconnected...`
when the address is not empty, and changes nothing when it is empty.
Comparing the elapsed time truncated to whole seconds with 15 is the same as
comparing the instant of the pass with `T` + 15 seconds. In the scenario with
pings at t = 0, 5, 10 and one pass per second, the session is connected and
has no disconnected line after each of the passes of t = 0, ..., 24, and the
pass of t = 25 appends the disconnected line. -/
theorem RunServer_disconnect_timing (st : Monitor) (T : Int) (clientip : String)
    (t0 : Int) (pre : List Int) (t : Int)
    (hlater : st.last_ping < T)
    (hpre : ∀ u ∈ pre, u < T + 15 * ticks_per_second) :
    (run_events st [Event.ping T clientip, Event.check t0]).connected = true ∧
    (run_events st [Event.ping T clientip, Event.check t0]).textEdit =
      st.textEdit ++
        (if st.connected then ["Ping!"] else [clientip ++ " connected...", "Ping!"]) ∧
    run_events st (Event.ping T clientip :: Event.check t0 :: passes pre) =
      run_events st [Event.ping T clientip, Event.check t0] ∧
    (t < T + 15 * ticks_per_second →
      run_events st (Event.ping T clientip :: Event.check t0 :: passes (pre ++ [t])) =
        run_events st [Event.ping T clientip, Event.check t0]) ∧
    (clientip ≠ "" → T + 15 * ticks_per_second ≤ t →
      run_events st (Event.ping T clientip :: Event.check t0 :: passes (pre ++ [t])) =
        { run_events st [Event.ping T clientip, Event.check t0] with
          textEdit := (run_events st [Event.ping T clientip, Event.check t0]).textEdit
            ++ [clientip ++ " disconnected..."],
          connected := false }) ∧
    (clientip = "" →
      run_events st (Event.ping T clientip :: Event.check t0 :: passes (pre ++ [t])) =
        run_events st [Event.ping T clientip, Event.check t0]) ∧
    (15 ≤ duration_cast_seconds (t - T) ↔ T + 15 * ticks_per_second ≤ t) ∧
    (∀ s, s ≤ 24 →
      (run_events Monitor.init (scenario scenario_origin "10.0.0.9" s)).connected = true ∧
      "10.0.0.9 disconnected..." ∉
        (run_events Monitor.init (scenario scenario_origin "10.0.0.9" s)).textEdit) ∧
    run_events Monitor.init (scenario scenario_origin "10.0.0.9" 25) =
      ⟨⟨"10.0.0.9", at_second scenario_origin 10⟩, at_second scenario_origin 10, false,
        ["10.0.0.9 connected...", "Ping!", "Ping!", "Ping!",
          "10.0.0.9 disconnected..."]⟩ := by
  have hA : run_events st [Event.ping T clientip, Event.check t0] =
      RunServer_iteration { st with service := st.service.Ping T clientip } t0 := rfl
  have hfresh : ({ st with service := st.service.Ping T clientip } : Monitor).service.last_ping
      ≠ ({ st with service := st.service.Ping T clientip } : Monitor).last_ping := by
    show T ≠ st.last_ping
    omega
  obtain ⟨hc, hl, hsv⟩ := RunServer_iteration_sees_ping _ t0 hfresh
  rw [← hA] at hc hl hsv
  have hl' : (run_events st [Event.ping T clientip, Event.check t0]).last_ping = T := hl
  have hsv' : (run_events st [Event.ping T clientip, Event.check t0]).service
      = ⟨clientip, T⟩ := hsv
  have hsame : (run_events st [Event.ping T clientip, Event.check t0]).service.last_ping
      = (run_events st [Event.ping T clientip, Event.check t0]).last_ping := by
    rw [hsv', hl']
  have hsplit : ∀ es, run_events st (Event.ping T clientip :: Event.check t0 :: es) =
      run_events (run_events st [Event.ping T clientip, Event.check t0]) es := by
    intro es
    rfl
  have hq : run_events (run_events st [Event.ping T clientip, Event.check t0]) (passes pre)
      = run_events st [Event.ping T clientip, Event.check t0] :=
    run_events_passes_quiet _ pre hsame (by rw [hl']; exact hpre)
  have happ : run_events st (Event.ping T clientip :: Event.check t0 :: passes (pre ++ [t]))
      = RunServer_iteration (run_events st [Event.ping T clientip, Event.check t0]) t := by
    rw [hsplit]
    simp only [passes, List.map_append, List.map, run_events, List.foldl_append,
      List.foldl, Event.apply] at hq ⊢
    rw [hq]
  refine ⟨hc, ?_, ?_, ?_, ?_, ?_, ?_, scenario_trace.1, scenario_trace.2⟩
  · rw [hA]
    have hne : ¬ (T = st.last_ping) := by omega
    cases hcn : st.connected <;>
      simp [RunServer_iteration, MaintainingApiServiceImpl.Ping, hcn, hne]
  · rw [hsplit, hq]
  · intro ht
    rw [happ]
    exact RunServer_iteration_quiet _ t hsame (by rw [hl']; exact ht)
  · intro hip ht
    rw [happ, RunServer_iteration_fires _ t hsame hc (by rw [hsv']; exact hip)
      (by rw [hl']; exact ht)]
    simp [hsv']
  · intro hip
    rw [happ]
    have he : (run_events st [Event.ping T clientip, Event.check t0]).service.ip.isEmpty
        = true := by
      rw [hsv', hip]
      show ("" : String).isEmpty = true
      decide
    generalize run_events st [Event.ping T clientip, Event.check t0] = A at hsame he ⊢
    simp [RunServer_iteration, hsame, he]
  · rw [duration_cast_seconds_ge]
    omega

/-- Witness for C7, amended: a session idle since the epoch receives a ping
from `10.0.0.9` at second 10, registered by the pass of second 10; passes
follow at seconds 11, 17 and 24, then at second 25. -/
theorem RunServer_disconnect_timing_witness :
    run_events Monitor.init
        (Event.ping (at_second 0 10) "10.0.0.9" :: Event.check (at_second 0 10) ::
          passes ([at_second 0 11, at_second 0 17, at_second 0 24] ++ [at_second 0 25])) =
      { run_events Monitor.init
          [Event.ping (at_second 0 10) "10.0.0.9", Event.check (at_second 0 10)] with
        textEdit :=
          (run_events Monitor.init
            [Event.ping (at_second 0 10) "10.0.0.9", Event.check (at_second 0 10)]).textEdit
            ++ ["10.0.0.9" ++ " disconnected..."],
        connected := false } :=
  (RunServer_disconnect_timing Monitor.init (at_second 0 10) "10.0.0.9" (at_second 0 10)
    [at_second 0 11, at_second 0 17, at_second 0 24] (at_second 0 25)
    (by decide) (by decide)).2.2.2.2.1 (by decide) (by decide)

/-- C8. One pass of the monitor. If the instant of last ping differs from the
one remembered: with `connected` false the pass sets it, appends
`<address> connected...` and then `Ping!`; with `connected` true it appends
only `Ping!`; either way the remembered instant becomes the instant of last
ping. The address is the one of the latest call of `Ping`. If the instant of
last ping has not changed and `connected` is false, the pass changes
nothing. -/
theorem RunServer_iteration_ping (st : Monitor) (now : Int) :
    (st.service.last_ping ≠ st.last_ping → st.connected = false →
      RunServer_iteration st now =
        { st with textEdit := st.textEdit ++ [st.service.ip ++ " connected...", "Ping!"],
                  connected := true, last_ping := st.service.last_ping }) ∧
    (st.service.last_ping ≠ st.last_ping → st.connected = true →
      RunServer_iteration st now =
        { st with textEdit := st.textEdit ++ ["Ping!"],
                  last_ping := st.service.last_ping }) ∧
    (∀ (t : Int) (clientip : String),
      (st.service.Ping t clientip).ip = clientip ∧
      (st.service.Ping t clientip).last_ping = t) ∧
    (st.service.last_ping = st.last_ping → st.connected = false →
      RunServer_iteration st now = st) := by
  refine ⟨?_, ?_, ?_, ?_⟩
  · intro h hc
    simp [RunServer_iteration, h, hc]
  · intro h hc
    simp [RunServer_iteration, h, hc]
  · intro t clientip
    exact ⟨rfl, rfl⟩
  · intro h hc
    simp [RunServer_iteration, h, hc]

/-- Witness for C8: the first ping, from `10.0.0.9`, seen by an idle
monitor. -/
theorem RunServer_iteration_ping_witness :
    RunServer_iteration
        { Monitor.init with service := Monitor.init.service.Ping 7 "10.0.0.9" } 8 =
      ⟨⟨"10.0.0.9", 7⟩, 7, true, ["10.0.0.9 connected...", "Ping!"]⟩ :=
  (RunServer_iteration_ping
    { Monitor.init with service := Monitor.init.service.Ping 7 "10.0.0.9" } 8).1
    (by decide) rfl

/-- Counterexample to C9: `connected` is false at the start of the cycle and
the call of `sendto` fails (no route to the broadcast address, say); the
cycle sleeps 10 seconds and no advertisement is sent. -/
theorem udp_broadcaster_cycle_counterexample :
    udp_broadcaster_cycle false "10.0.0.9" "50051" ⟨true, true, false⟩ = ⟨[], 10⟩ := by
  decide

/-- C9, amended. A cycle that starts with `connected` true sends nothing and
sleeps 5 seconds. A cycle that starts with `connected` false sleeps 10
seconds and sends what its one call of `udp_broadcast` sends: the single
advertisement `<ip>:<port>` when `socket`, `setsockopt` and `sendto` succeed,
nothing when one of them fails. Over any sequence of cycles that all start
with `connected` true no datagram is sent, and the time slept is 5 seconds
per cycle. -/
theorem udp_broadcaster_cycle_spec (connected : Bool) (ip port : String) (env : SocketEnv) :
    (connected = true → udp_broadcaster_cycle connected ip port env = ⟨[], 5⟩) ∧
    (connected = false →
      (udp_broadcaster_cycle connected ip port env).slept = 10 ∧
      (udp_broadcaster_cycle connected ip port env).sent
        = udp_broadcast (ip ++ ":" ++ port) env ∧
      (env.socket_ok = true → env.setsockopt_ok = true → env.sendto_ok = true →
        (udp_broadcaster_cycle connected ip port env).sent = [ip ++ ":" ++ port]) ∧
      (env.socket_ok = false ∨ env.setsockopt_ok = false ∨ env.sendto_ok = false →
        (udp_broadcaster_cycle connected ip port env).sent = [])) ∧
    (∀ cycles : List (Bool × SocketEnv), (∀ c ∈ cycles, c.1 = true) →
      (udp_broadcaster ip port cycles).sent = [] ∧
      (udp_broadcaster ip port cycles).slept = 5 * cycles.length) := by
  refine ⟨?_, ?_, ?_⟩
  · intro h
    simp [udp_broadcaster_cycle, h]
  · intro h
    refine ⟨by simp [udp_broadcaster_cycle, h], by simp [udp_broadcaster_cycle, h], ?_, ?_⟩
    · intro h1 h2 h3
      simp [udp_broadcaster_cycle, udp_broadcast, h, h1, h2, h3]
    · intro hfail
      rcases hfail with h1 | h1 | h1
      · simp [udp_broadcaster_cycle, udp_broadcast, h, h1]
      · simp [udp_broadcaster_cycle, udp_broadcast, h, h1]
      · simp [udp_broadcaster_cycle, udp_broadcast, h, h1]
  · intro cycles
    induction cycles with
    | nil => intro _; exact ⟨rfl, rfl⟩
    | cons c rest ih =>
      intro hall
      obtain ⟨b, env'⟩ := c
      have hb : b = true := hall (b, env') (by simp)
      obtain ⟨i1, i2⟩ := ih (fun c hc => hall c (by simp [hc]))
      subst hb
      constructor
      · simp [udp_broadcaster, udp_broadcaster_cycle, i1]
      · simp [udp_broadcaster, udp_broadcaster_cycle, i2]
        omega

/-- Witness for C9, amended: the cycles that start at seconds 0, 5 and 10 of a
window of 12 seconds in which `connected` stays true. -/
theorem udp_broadcaster_cycle_spec_witness :
    (udp_broadcaster "10.0.0.9" "50051"
        [(true, ⟨true, true, true⟩), (true, ⟨true, true, true⟩),
          (true, ⟨true, true, true⟩)]).sent = [] ∧
    udp_broadcaster_cycle false "10.0.0.9" "50051" ⟨true, true, true⟩
      = ⟨["10.0.0.9:50051"], 10⟩ :=
  ⟨((udp_broadcaster_cycle_spec true "10.0.0.9" "50051" ⟨true, true, true⟩).2.2
      [(true, ⟨true, true, true⟩), (true, ⟨true, true, true⟩), (true, ⟨true, true, true⟩)]
      (by decide)).1,
   by decide⟩

end Server

end TestGrpc
